import Mathlib

/-
  Verification development for the borderdistance repository.

  Shallow embedding notes:
  - JavaScript numbers are modelled as exact rationals; where JavaScript
    division by zero yields Infinity/NaN, the Lean convention q / 0 = 0
    applies and is noted at the theorems it affects.
  - The geodesic library (GeographicLib) is an external collaborator.  Its
    two operations are abstracted as parameters: a distance function
    d : alpha -> alpha -> Rat (the Inverse call, s12/a12 field) and an
    interpolation function interp : alpha -> alpha -> Rat -> alpha (the
    GeodesicLine walk that returns the point a fraction of the way along
    the geodesic between two points).
  - A thrown JavaScript exception is modelled as an error value of an
    explicit failure type.
-/

/-- A border segment, as produced by the preprocessing step: a start point,
an end point, and the precomputed geodesic distance between them.  The end
field keeps the source name via identifier quoting because end is a Lean
keyword. -/
structure Segment (α : Type) where
  start : α
  «end» : α
  distance : ℚ
  deriving DecidableEq, Repr

/-- The result shape returned by closestToGeodesic and distanceToBorder in
src/unnamed/part_002: a distance together with the closest point. -/
structure NearestResult (α : Type) where
  distance : ℚ
  point : α
  deriving DecidableEq, Repr

/-! ## src/src/lib/newtonsmethod.js -/

/-- estimateFirstDerivative from src/src/lib/newtonsmethod.js:
(f (x + stepSize) - f (x - stepSize)) / (2 * stepSize). -/
def estimateFirstDerivative (f : ℚ → ℚ) (x stepSize : ℚ) : ℚ :=
  (f (x + stepSize) - f (x - stepSize)) / (2 * stepSize)

/-- estimateSecondDerivative from src/src/lib/newtonsmethod.js, verbatim:
the inner estimateFirstDerivative calls receive x (the evaluation point)
as their stepSize argument, exactly as the source line
(estimateFirstDerivative(f, x + stepSize, x) - estimateFirstDerivative(f, x - stepSize, x)) / (2 * stepSize)
does. -/
def estimateSecondDerivative (f : ℚ → ℚ) (x stepSize : ℚ) : ℚ :=
  (estimateFirstDerivative f (x + stepSize) x
      - estimateFirstDerivative f (x - stepSize) x) / (2 * stepSize)

/-- One Newton update, the body of the loop line
next = cur - estimateFirstDerivative(f, cur, stepSize) / estimateSecondDerivative(f, cur, stepSize). -/
def newtonNext (f : ℚ → ℚ) (stepSize cur : ℚ) : ℚ :=
  cur - estimateFirstDerivative f cur stepSize / estimateSecondDerivative f cur stepSize

/-- The iteration loop of tunableMinimize: runs at most the given number of
iterations; returns the new iterate as soon as two successive iterates are
closer than convergenceMargin, otherwise the sentinel none (the source
returns false).  The try/catch of the source is inert here because the
embedded f is a total function. -/
def tunableMinimizeGo (stepSize convergenceMargin : ℚ) (f : ℚ → ℚ) :
    ℕ → ℚ → Option ℚ
  | 0, _ => none
  | Nat.succ n, cur =>
    let next := newtonNext f stepSize cur
    if |cur - next| < convergenceMargin then some next
    else tunableMinimizeGo stepSize convergenceMargin f n next

/-- tunableMinimize from src/src/lib/newtonsmethod.js (argument order of the
source: numIters, stepSize, convergenceMargin, f, initialGuess). -/
def tunableMinimize (numIters : ℕ) (stepSize convergenceMargin : ℚ)
    (f : ℚ → ℚ) (initialGuess : ℚ) : Option ℚ :=
  tunableMinimizeGo stepSize convergenceMargin f numIters initialGuess

/-- NUM_ITERS = 15 from the source. -/
def NUM_ITERS : ℕ := 15

/-- STEP_SIZE = 0.01 from the source. -/
def STEP_SIZE : ℚ := 1 / 100

/-- CONVERGENCE_MARGIN = 0.001 from the source. -/
def CONVERGENCE_MARGIN : ℚ := 1 / 1000

/-- minimize = tunableMinimize.bind(null, NUM_ITERS, STEP_SIZE, CONVERGENCE_MARGIN). -/
def minimize (f : ℚ → ℚ) (initialGuess : ℚ) : Option ℚ :=
  tunableMinimize NUM_ITERS STEP_SIZE CONVERGENCE_MARGIN f initialGuess

/-- The second-derivative estimator as the specification describes it: a
central difference of the first-derivative estimator at x plus/minus h/2,
with the inner first-derivative estimates using the fixed step h.  This
definition follows the wording of the specification and is compared with
estimateSecondDerivative, the definition taken from the source. -/
def specSecondDerivative (f : ℚ → ℚ) (x stepSize : ℚ) : ℚ :=
  (estimateFirstDerivative f (x + stepSize / 2) stepSize
      - estimateFirstDerivative f (x - stepSize / 2) stepSize) / stepSize

/-! ## src/unnamed/part_002 (the module with distanceToBorder) -/

/-- The failure modes of a distanceToBorder call.  thrownTypeError models
the JavaScript TypeError raised by reading a property of the undefined
value segments[0] when the segment list is empty; emptyBorderError models
the designed value-level EmptyBorder failure the specification describes
(no code path produces it). -/
inductive CallFailure where
  | thrownTypeError
  | emptyBorderError
  deriving DecidableEq, Repr

/-- The lodash minBy call of closestToGeodesic: the first list element with
the minimal value of the iteratee, folded with a strict comparison exactly
as lodash computes it.  The head of the nonempty candidate list is passed
separately so the function is total, as minBy on a nonempty array is. -/
def minBy1 {α : Type} (f : α → ℚ) (x : α) (xs : List α) : α :=
  xs.foldl (fun best c => if f c < f best then c else best) x

/-- The conditional candidates.push of closestToGeodesic in
src/unnamed/part_002, parameterized over the geodesic provider: d is the
Inverse distance (distanceBetween) and interp is linearCombination.  The
interpolated point is pushed only when the minimizer converged to an alpha
strictly between 0 and 1 (the source condition alpha > 0 && alpha < 1,
which is false for the sentinel since false coerces to 0 in JavaScript). -/
def interiorCandidates {α : Type} (d : α → α → ℚ) (interp : α → α → ℚ → α)
    (b a1 a2 : α) : List α :=
  match minimize (fun alpha => d (interp a1 a2 alpha) b) (1 / 2) with
  | some a => if 0 < a ∧ a < 1 then [interp a1 a2 a] else []
  | none => []

/-- closestToGeodesic from src/unnamed/part_002 (continued): the candidate
list is both endpoints followed by the interior candidate if any, the
closest point is the lodash minBy over the candidates with the distance to
b as iteratee, and the result pairs that point with its distance to b. -/
def closestToGeodesic {α : Type} (d : α → α → ℚ) (interp : α → α → ℚ → α)
    (b a1 a2 : α) : NearestResult α :=
  let rest : List α := [a2] ++ interiorCandidates d interp b a1 a2
  let closestPoint : α := minBy1 (fun p => d p b) a1 rest
  { distance := d closestPoint b, point := closestPoint }

/-- The per-query lower bound attached to a segment by distanceToBorder:
distanceBetween(segment.end, query) minus segment.distance. -/
def lowerBound {α : Type} (d : α → α → ℚ) (seg : Segment α) (b : α) : ℚ :=
  d seg.«end» b - seg.distance

/-- The annotate-and-sort pipeline at the top of distanceToBorder: each
segment is paired with its lower bound (modelling the lowerBound field
assigned onto a deep clone of the segment) and the pairs are stable-sorted
ascending by that bound.  The lodash sortBy is a stable ascending sort, so
it is modelled by insertionSort, which is also stable. -/
def annotateAndSort {α : Type} (d : α → α → ℚ) (segments : List (Segment α))
    (b : α) : List (Segment α × ℚ) :=
  List.insertionSort (fun x y => x.2 ≤ y.2)
    (segments.map (fun seg => (seg, lowerBound d seg b)))

/-- The scan loop of distanceToBorder over the sorted tail: terminate and
return the best result found when the next lower bound already exceeds it
(the break), otherwise evaluate closestToGeodesic on the segment and keep
the strictly better result. -/
def scanLoop {α : Type} (d : α → α → ℚ) (interp : α → α → ℚ → α) (b : α) :
    List (Segment α × ℚ) → NearestResult α → NearestResult α
  | [], best => best
  | (seg, lb) :: rest, best =>
    if best.distance < lb then best
    else
      let result := closestToGeodesic d interp b seg.start seg.«end»
      scanLoop d interp b rest
        (if result.distance < best.distance then result else best)

/-- distanceToBorder from src/unnamed/part_002.  On an empty segment list
the source evaluates closestOnSegment(segments[0]) where segments[0] is
undefined, so the call throws a TypeError; that is the thrownTypeError
error value here.  Otherwise the first (lowest-bound) segment seeds the
best result and the scan loop processes the sorted tail. -/
def distanceToBorder {α : Type} (d : α → α → ℚ) (interp : α → α → ℚ → α)
    (segments : List (Segment α)) (b : α) :
    Except CallFailure (NearestResult α) :=
  match annotateAndSort d segments b with
  | [] => Except.error CallFailure.thrownTypeError
  | s0 :: rest =>
    Except.ok (scanLoop d interp b rest
      (closestToGeodesic d interp b s0.1.start s0.1.«end»))

/-- One step of the exhaustive reference evaluation: evaluate
closestToGeodesic on the segment and keep the strictly smaller result. -/
def exhaustiveStep {α : Type} (d : α → α → ℚ) (interp : α → α → ℚ → α)
    (b : α) (best : NearestResult α) (seg : Segment α) : NearestResult α :=
  if (closestToGeodesic d interp b seg.start seg.«end»).distance < best.distance
  then closestToGeodesic d interp b seg.start seg.«end» else best

/-- The exhaustive, unpruned reference evaluation: closestToGeodesic on
every segment in the given order, keeping the strictly smaller distance,
with no lower bounds, no sort and no early termination. -/
def exhaustiveDistanceToBorder {α : Type} (d : α → α → ℚ)
    (interp : α → α → ℚ → α) (segments : List (Segment α)) (b : α) :
    Except CallFailure (NearestResult α) :=
  match segments with
  | [] => Except.error CallFailure.thrownTypeError
  | s0 :: rest =>
    Except.ok (rest.foldl (exhaustiveStep d interp b)
      (closestToGeodesic d interp b s0.start s0.«end»))

/-- A distanceToBorder call observed together with the state of the caller
segment list after the call.  In the source every write performed during
the call lands on fresh structures: the lowerBound is assigned onto a deep
clone of each segment and the lodash map and sortBy build new arrays, so
the caller list after the call is the unchanged input. -/
def distanceToBorderCall {α : Type} (d : α → α → ℚ) (interp : α → α → ℚ → α)
    (segments : List (Segment α)) (b : α) :
    Except CallFailure (NearestResult α) × List (Segment α) :=
  (distanceToBorder d interp segments b, segments)

/-! ## src/unnamed/part_000 (scripts/process.js, the segment builder) -/

/-- A geographic point with latitude and longitude, the shape built by
polygonToPaths. -/
structure GeoPoint where
  lat : ℚ
  lon : ℚ
  deriving DecidableEq, Repr

/-- The adjacent-pairs step of polygonToPaths.  The source computes
initial(zip(coordinateArray, tail(coordinateArray))); lodash zip pads to
the longer list and initial then drops that final padded pair, which is
the same as the truncating zip used here.  A list of n coordinates yields
n - 1 pairs, and a list of 0 or 1 coordinates yields no pairs. -/
def zipAdjacent (l : List (ℚ × ℚ)) : List ((ℚ × ℚ) × (ℚ × ℚ)) :=
  l.zip l.tail

/-- Building one segment from a consecutive coordinate pair.  GeoJSON
coordinates are [longitude, latitude], so the first component is lon and
the second is lat, exactly as the source reads coord[0][1] for lat and
coord[0][0] for lon.  The distance field is filled from the geodesic
provider dg, modelling earth.Inverse(...).s12. -/
def coordPairToSegment (dg : GeoPoint → GeoPoint → ℚ)
    (c : (ℚ × ℚ) × (ℚ × ℚ)) : Segment GeoPoint :=
  let s : GeoPoint := { lat := c.1.2, lon := c.1.1 }
  let e : GeoPoint := { lat := c.2.2, lon := c.2.1 }
  { start := s, «end» := e, distance := dg s e }

/-- polygonToPaths from src/unnamed/part_000: every coordinate ring is
turned into its list of consecutive-pair segments and the per-ring lists
are flattened.  There is no validation of any kind in the source: no
minimum-length check and no first-equals-last check. -/
def polygonToPaths (dg : GeoPoint → GeoPoint → ℚ)
    (polygon : List (List (ℚ × ℚ))) : List (Segment GeoPoint) :=
  (polygon.map (fun coordinateArray =>
    (zipAdjacent coordinateArray).map (coordPairToSegment dg))).flatten

/-- The builder failure the specification describes. -/
inductive BuildFailure where
  | invalidGeometry
  deriving DecidableEq, Repr

/-- The Segment Builder as the specification describes it: a ring with
fewer than 2 coordinates, or whose first coordinate differs from its last,
fails the whole build with InvalidGeometry; otherwise the segments are the
ones polygonToPaths produces.  This definition follows the wording of the
specification and is compared with polygonToPaths, the definition taken
from the source. -/
def buildChecked (dg : GeoPoint → GeoPoint → ℚ)
    (polygon : List (List (ℚ × ℚ))) :
    Except BuildFailure (List (Segment GeoPoint)) :=
  if polygon.all (fun ring =>
      decide (2 ≤ ring.length) && decide (ring.head? = ring.getLast?))
  then Except.ok (polygonToPaths dg polygon)
  else Except.error BuildFailure.invalidGeometry

/-! ## src/borderdistance.js (the legacy browser script) -/

/-- estimateFirstDerivative from src/borderdistance.js: the half-step
central difference (f (x + stepSize/2) - f (x - stepSize/2)) / stepSize. -/
def legacyEstimateFirstDerivative (f : ℚ → ℚ) (x stepSize : ℚ) : ℚ :=
  (f (x + stepSize / 2) - f (x - stepSize / 2)) / stepSize

/-- estimateSecondDerivative from src/borderdistance.js: central difference
of its first-derivative estimator at x plus/minus stepSize/2, with the
inner estimates using stepSize itself. -/
def legacyEstimateSecondDerivative (f : ℚ → ℚ) (x stepSize : ℚ) : ℚ :=
  (legacyEstimateFirstDerivative f (x + stepSize / 2) stepSize
      - legacyEstimateFirstDerivative f (x - stepSize / 2) stepSize) / stepSize

/-- One Newton update of the legacy newtonMinimization loop. -/
def legacyNewtonNext (f : ℚ → ℚ) (stepSize cur : ℚ) : ℚ :=
  cur - legacyEstimateFirstDerivative f cur stepSize
      / legacyEstimateSecondDerivative f cur stepSize

/-- The iteration loop of the legacy newtonMinimization; the sentinel none
models the false the source returns on exhaustion. -/
def newtonMinimizationGo (f : ℚ → ℚ) (stepSize convergenceMargin : ℚ) :
    ℕ → ℚ → Option ℚ
  | 0, _ => none
  | Nat.succ n, cur =>
    let next := legacyNewtonNext f stepSize cur
    if |cur - next| < convergenceMargin then some next
    else newtonMinimizationGo f stepSize convergenceMargin n next

/-- newtonMinimization from src/borderdistance.js (source argument order:
f, initialGuess, numIters, stepSize, convergenceMargin). -/
def newtonMinimization (f : ℚ → ℚ) (initialGuess : ℚ) (numIters : ℕ)
    (stepSize convergenceMargin : ℚ) : Option ℚ :=
  newtonMinimizationGo f stepSize convergenceMargin numIters initialGuess

/-- The candidate list of getClosestPointAndDistanceOnSegment in the legacy
script: both endpoints, plus the intermediate point when the minimizer
converged to an alpha strictly inside (0,1).  The provider parameter dArc
is the Inverse arc length a12 used by pointToPathFunc, and interp is
getIntermediatePoint. -/
def legacyCandidates {α : Type} (dArc : α → α → ℚ) (interp : α → α → ℚ → α)
    (a1 a2 b : α) : List α :=
  let f : ℚ → ℚ := fun alpha => dArc (interp a1 a2 alpha) b
  let alpha : Option ℚ := newtonMinimization f (1 / 2) 15 (1 / 100) (1 / 1000)
  [a1, a2] ++ (match alpha with
    | some a => if 0 < a ∧ a < 1 then [interp a1 a2 a] else []
    | none => [])

/-- The distances array of getClosestPointAndDistanceOnSegment: for each
candidate, geod.Inverse(latb, lonb, candidate).s12, modelled by the
provider parameter dS applied as dS b candidate. -/
def legacyDistances {α : Type} (dS dArc : α → α → ℚ)
    (interp : α → α → ℚ → α) (a1 a2 b : α) : List ℚ :=
  (legacyCandidates dArc interp a1 a2 b).map (fun c => dS b c)

/-- The JavaScript comparison distances[i] < distances[mini] under total
modelling: comparing with the undefined value of an out-of-range read is
false, exactly as any JavaScript < with undefined is false. -/
def jsLtOpt : Option ℚ → Option ℚ → Bool
  | some a, some b => decide (a < b)
  | _, _ => false

/-- The minimum-selection loop of getClosestPointAndDistanceOnSegment,
verbatim: the index i always ranges over 0, 1, 2 (the source bound is the
literal 3, not the array length). -/
def legacyMini (distList : List ℚ) : ℕ :=
  (List.range 3).foldl
    (fun mini i => if jsLtOpt (distList.get? i) (distList.get? mini) then i
      else mini) 0

/-- The reads the selection loop performs on the distances list, one per
index 0, 1, 2, as optional values (none is a read past the end). -/
def legacyLoopReads (distList : List ℚ) : List (Option ℚ) :=
  (List.range 3).map distList.get?

/-- getClosestPointAndDistanceOnSegment from src/borderdistance.js.  The
final reads distances[mini] and candidates[mini] are modelled totally: the
result is none if either read falls outside the list. -/
def getClosestPointAndDistanceOnSegment {α : Type} (dS dArc : α → α → ℚ)
    (interp : α → α → ℚ → α) (a1 a2 b : α) : Option (NearestResult α) :=
  let candidates := legacyCandidates dArc interp a1 a2 b
  let distList := legacyDistances dS dArc interp a1 a2 b
  let mini := legacyMini distList
  match distList.get? mini, candidates.get? mini with
  | some dist, some c => some { distance := dist, point := c }
  | _, _ => none

/-! ## Concrete geodesic providers used for witnesses and counterexamples -/

/-- A concrete provider distance for witnesses: the absolute difference on
rational points.  It is symmetric, nonnegative and satisfies the triangle
inequality, the properties the abstract theorems assume of the geodesic
provider. -/
def d1 : ℚ → ℚ → ℚ := fun p q => |p - q|

/-- A concrete provider interpolation for witnesses: the affine point a
fraction a of the way from s to e, matching what the GeodesicLine walk
does on this one-dimensional provider. -/
def interp1 : ℚ → ℚ → ℚ → ℚ := fun s e a => s + a * (e - s)

/-- A concrete provider distance on GeoPoint for the builder theorems. -/
def d1g : GeoPoint → GeoPoint → ℚ := fun p q => |p.lat - q.lat| + |p.lon - q.lon|

/-- A concrete arc-length provider making the legacy minimizer converge to
alpha = 0: along this provider the distance function seen by the minimizer
is -(alpha * alpha), whose Newton iteration from 1/2 reaches 0 in two
steps. -/
def cArc : ℚ → ℚ → ℚ := fun p _ => -(p * p)

/-- A concrete interpolation for the legacy counterexample: the fractional
position itself. -/
def cInterp : ℚ → ℚ → ℚ → ℚ := fun _ _ a => a

/-! ## Helper lemmas -/

/-- Unfolding lemma for one pass of the tunableMinimize loop. -/
theorem tunableMinimizeGo_succ (stepSize convergenceMargin : ℚ) (f : ℚ → ℚ)
    (n : ℕ) (cur : ℚ) :
    tunableMinimizeGo stepSize convergenceMargin f (n + 1) cur =
      if |cur - newtonNext f stepSize cur| < convergenceMargin
      then some (newtonNext f stepSize cur)
      else tunableMinimizeGo stepSize convergenceMargin f n
        (newtonNext f stepSize cur) := rfl

/-- Unfolding lemma for one pass of the legacy newtonMinimization loop. -/
theorem newtonMinimizationGo_succ (f : ℚ → ℚ) (stepSize convergenceMargin : ℚ)
    (n : ℕ) (cur : ℚ) :
    newtonMinimizationGo f stepSize convergenceMargin (n + 1) cur =
      if |cur - legacyNewtonNext f stepSize cur| < convergenceMargin
      then some (legacyNewtonNext f stepSize cur)
      else newtonMinimizationGo f stepSize convergenceMargin n
        (legacyNewtonNext f stepSize cur) := rfl

theorem d1_symm : ∀ p q : ℚ, d1 p q = d1 q p := by
  intro p q
  unfold d1
  exact abs_sub_comm p q

theorem d1_tri : ∀ p q r : ℚ, d1 p r ≤ d1 p q + d1 q r := by
  intro p q r
  unfold d1
  exact abs_sub_le p q r

theorem d1_nonneg : ∀ p q : ℚ, 0 ≤ d1 p q := by
  intro p q
  unfold d1
  exact abs_nonneg _

theorem interp1_within : ∀ s e t : ℚ, 0 ≤ t → t ≤ 1 →
    d1 (interp1 s e t) e ≤ d1 s e := by
  intro s e t h0 h1
  have h : interp1 s e t - e = (1 - t) * (s - e) := by unfold interp1; ring
  unfold d1
  calc |interp1 s e t - e| = |(1 - t) * (s - e)| := by rw [h]
    _ = |1 - t| * |s - e| := abs_mul _ _
    _ = (1 - t) * |s - e| := by rw [abs_of_nonneg (by linarith)]
    _ ≤ 1 * |s - e| := mul_le_mul_of_nonneg_right (by linarith) (abs_nonneg _)
    _ = |s - e| := one_mul _

theorem minBy1_mem {α : Type} (f : α → ℚ) (x : α) (xs : List α) :
    minBy1 f x xs ∈ x :: xs := by
  induction xs generalizing x with
  | nil => simp [minBy1]
  | cons c cs ih =>
    have h : minBy1 f x (c :: cs) = minBy1 f (if f c < f x then c else x) cs := rfl
    rw [h]
    have := ih (if f c < f x then c else x)
    rcases List.mem_cons.mp this with h1 | h1
    · rw [h1]
      split <;> simp
    · simp [h1]

theorem minBy1_le {α : Type} (f : α → ℚ) (x : α) (xs : List α) :
    ∀ y ∈ x :: xs, f (minBy1 f x xs) ≤ f y := by
  induction xs generalizing x with
  | nil =>
    intro y hy
    rcases List.mem_cons.mp hy with h1 | h1
    · rw [h1]; exact le_refl _
    · simp at h1
  | cons c cs ih =>
    intro y hy
    have h : minBy1 f x (c :: cs) = minBy1 f (if f c < f x then c else x) cs := rfl
    have hhead : f (minBy1 f (if f c < f x then c else x) cs)
        ≤ f (if f c < f x then c else x) :=
      ih (if f c < f x then c else x) _ (List.mem_cons_self _ _)
    rcases List.mem_cons.mp hy with h1 | h1
    · rw [h1, h]
      by_cases hc : f c < f x
      · rw [if_pos hc]
        simp only [if_pos hc] at hhead
        exact le_trans hhead (le_of_lt hc)
      · rw [if_neg hc]
        simp only [if_neg hc] at hhead
        exact hhead
    rcases List.mem_cons.mp h1 with h2 | h2
    · rw [h2, h]
      by_cases hc : f c < f x
      · rw [if_pos hc]
        simp only [if_pos hc] at hhead
        exact hhead
      · rw [if_neg hc]
        simp only [if_neg hc] at hhead
        exact le_trans hhead (not_lt.mp hc)
    · rw [h]
      exact ih (if f c < f x then c else x) y (List.mem_cons_of_mem _ h2)

theorem interiorCandidates_spec {α : Type} (d : α → α → ℚ)
    (interp : α → α → ℚ → α) (b a1 a2 : α) :
    ∀ p ∈ interiorCandidates d interp b a1 a2,
      ∃ a : ℚ, 0 < a ∧ a < 1 ∧ p = interp a1 a2 a := by
  intro p hp
  unfold interiorCandidates at hp
  split at hp
  · split at hp
    · rename_i a heq ha
      simp only [List.mem_singleton] at hp
      exact ⟨a, ha.1, ha.2, hp⟩
    · simp at hp
  · simp at hp

/-- The closest point selected by closestToGeodesic, as a definitional
unfolding usable in proofs. -/
theorem closestToGeodesic_eq {α : Type} (d : α → α → ℚ)
    (interp : α → α → ℚ → α) (b a1 a2 : α) :
    closestToGeodesic d interp b a1 a2 =
      { distance := d (minBy1 (fun p => d p b) a1
          ([a2] ++ interiorCandidates d interp b a1 a2)) b,
        point := minBy1 (fun p => d p b) a1
          ([a2] ++ interiorCandidates d interp b a1 a2) } := rfl

theorem closestToGeodesic_point_cases {α : Type} (d : α → α → ℚ)
    (interp : α → α → ℚ → α) (b a1 a2 : α) :
    (closestToGeodesic d interp b a1 a2).point = a1 ∨
    (closestToGeodesic d interp b a1 a2).point = a2 ∨
    ∃ a : ℚ, 0 < a ∧ a < 1 ∧
      (closestToGeodesic d interp b a1 a2).point = interp a1 a2 a := by
  rw [closestToGeodesic_eq]
  have hmem := minBy1_mem (fun p => d p b) a1
    ([a2] ++ interiorCandidates d interp b a1 a2)
  rcases List.mem_cons.mp hmem with h1 | h1
  · exact Or.inl h1
  rcases List.mem_append.mp h1 with h2 | h2
  · simp at h2
    exact Or.inr (Or.inl h2)
  · rcases interiorCandidates_spec d interp b a1 a2 _ h2 with ⟨a, ha0, ha1, hpa⟩
    exact Or.inr (Or.inr ⟨a, ha0, ha1, hpa⟩)

theorem closestToGeodesic_distance_eq_point {α : Type} (d : α → α → ℚ)
    (interp : α → α → ℚ → α) (b a1 a2 : α) :
    (closestToGeodesic d interp b a1 a2).distance
      = d (closestToGeodesic d interp b a1 a2).point b := rfl

/-- Unfolding lemma for one pass of the distanceToBorder scan loop. -/
theorem scanLoop_cons {α : Type} (d : α → α → ℚ) (interp : α → α → ℚ → α)
    (b : α) (seg : Segment α) (lb : ℚ) (rest : List (Segment α × ℚ))
    (best : NearestResult α) :
    scanLoop d interp b ((seg, lb) :: rest) best =
      if best.distance < lb then best
      else scanLoop d interp b rest
        (if (closestToGeodesic d interp b seg.start seg.«end»).distance
            < best.distance
         then closestToGeodesic d interp b seg.start seg.«end» else best) := rfl

/-- Every intermediate best of the scan loop keeps its two fields
consistent: the distance is the provider distance from the point to the
query. -/
theorem scanLoop_consistent {α : Type} (d : α → α → ℚ)
    (interp : α → α → ℚ → α) (b : α) :
    ∀ (l : List (Segment α × ℚ)) (best : NearestResult α),
      best.distance = d best.point b →
      (scanLoop d interp b l best).distance
        = d (scanLoop d interp b l best).point b := by
  intro l
  induction l with
  | nil => intro best h; exact h
  | cons p rest ih =>
    intro best h
    obtain ⟨seg, lb⟩ := p
    rw [scanLoop_cons]
    by_cases hb : best.distance < lb
    · rw [if_pos hb]; exact h
    · rw [if_neg hb]
      apply ih
      by_cases hr : (closestToGeodesic d interp b seg.start seg.«end»).distance
          < best.distance
      · rw [if_pos hr]
        exact closestToGeodesic_distance_eq_point d interp b seg.start seg.«end»
      · rw [if_neg hr]; exact h

/-! ## Claim theorems -/

/-- C6: for every query point and segment endpoints, closestToGeodesic
always returns a result (it is a total function, the minimizer sentinel
being absorbed by the candidate construction) and the distance of that
result is at most the provider distance from the query to either endpoint,
because both endpoints are always in the candidate list the minimum is
taken over.  Stated for every provider distance that is symmetric, as a
geodesic distance is. -/
theorem c6_closestToGeodesic_le_endpoints {α : Type} (d : α → α → ℚ)
    (interp : α → α → ℚ → α) (hsym : ∀ p q, d p q = d q p) (b a1 a2 : α) :
    (closestToGeodesic d interp b a1 a2).distance ≤ d b a1 ∧
    (closestToGeodesic d interp b a1 a2).distance ≤ d b a2 := by
  have h1 := minBy1_le (fun p => d p b) a1
    ([a2] ++ interiorCandidates d interp b a1 a2) a1 (List.mem_cons_self _ _)
  have h2 := minBy1_le (fun p => d p b) a1
    ([a2] ++ interiorCandidates d interp b a1 a2) a2 (by simp)
  constructor
  · rw [hsym b a1]; exact h1
  · rw [hsym b a2]; exact h2

/-- C6 witness: the theorem applied to the concrete absolute-difference
provider, the query 5 and the segment endpoints 0 and 2. -/
theorem c6_witness :
    (∀ p q : ℚ, d1 p q = d1 q p) ∧
    (closestToGeodesic d1 interp1 5 0 2).distance ≤ d1 5 0 ∧
    (closestToGeodesic d1 interp1 5 0 2).distance ≤ d1 5 2 :=
  ⟨d1_symm, c6_closestToGeodesic_le_endpoints d1 interp1 d1_symm 5 0 2⟩

/-- C9: the two fields of every NearestResult produced by closestToGeodesic
are mutually consistent (the distance equals the provider distance between
the returned point and the query, by construction of the result literal),
and every result distanceToBorder returns on a non-empty border inherits
this consistency because the scan loop only ever keeps such results. -/
theorem c9_result_fields_consistent {α : Type} (d : α → α → ℚ)
    (interp : α → α → ℚ → α) (b : α) :
    (∀ a1 a2 : α, (closestToGeodesic d interp b a1 a2).distance
        = d (closestToGeodesic d interp b a1 a2).point b) ∧
    ∀ (segments : List (Segment α)) (r : NearestResult α),
      distanceToBorder d interp segments b = Except.ok r →
      r.distance = d r.point b := by
  constructor
  · intro a1 a2
    exact closestToGeodesic_distance_eq_point d interp b a1 a2
  · intro segments r h
    unfold distanceToBorder at h
    rcases hA : annotateAndSort d segments b with _ | ⟨s0, rest⟩
    · rw [hA] at h
      exact absurd h (by simp)
    · rw [hA] at h
      simp only [Except.ok.injEq] at h
      rw [← h]
      exact scanLoop_consistent d interp b rest _
        (closestToGeodesic_distance_eq_point d interp b s0.1.start s0.1.«end»)

/-- C9 witness: with the absolute-difference provider and the single
segment from 0 to 2 queried from 5, distanceToBorder returns the endpoint
2 at distance 3, and the theorem ties the two fields together. -/
theorem c9_witness :
    distanceToBorder d1 interp1 [{ start := 0, «end» := 2, distance := 2 }] 5
      = Except.ok { distance := 3, point := 2 } ∧
    (3 : ℚ) = d1 (2 : ℚ) 5 := by
  have hmin : minimize (fun alpha => d1 (interp1 0 2 alpha) 5) (1 / 2)
      = some (1 / 2) := by
    have hnext : newtonNext (fun alpha => d1 (interp1 0 2 alpha) 5)
        STEP_SIZE (1 / 2) = 1 / 2 := by
      unfold newtonNext estimateSecondDerivative estimateFirstDerivative
        d1 interp1 STEP_SIZE
      norm_num [estimateFirstDerivative, abs_of_nonpos, abs_of_nonneg]
    rw [show minimize (fun alpha => d1 (interp1 0 2 alpha) 5) (1 / 2)
        = tunableMinimizeGo STEP_SIZE CONVERGENCE_MARGIN
          (fun alpha => d1 (interp1 0 2 alpha) 5) (14 + 1) (1 / 2) from rfl,
      tunableMinimizeGo_succ, hnext]
    norm_num [CONVERGENCE_MARGIN]
  have hcall : distanceToBorder d1 interp1
      [{ start := 0, «end» := 2, distance := 2 }] 5
      = Except.ok { distance := 3, point := 2 } := by
    have hic : interiorCandidates d1 interp1 5 0 2 = [1] := by
      unfold interiorCandidates
      rw [hmin]
      norm_num [interp1]
    have hsort : annotateAndSort d1 [{ start := 0, «end» := 2, distance := 2 }] 5
        = [({ start := 0, «end» := 2, distance := 2 }, d1 2 5 - 2)] := by
      unfold annotateAndSort lowerBound
      simp [List.insertionSort]
    unfold distanceToBorder
    rw [hsort]
    show Except.ok (closestToGeodesic d1 interp1 5 0 2)
      = Except.ok { distance := 3, point := 2 }
    rw [closestToGeodesic_eq, hic]
    norm_num [minBy1, d1, abs_of_nonpos, abs_of_nonneg]
  refine ⟨hcall, ?_⟩
  have := (c9_result_fields_consistent d1 interp1 5).2
    [{ start := 0, «end» := 2, distance := 2 }] { distance := 3, point := 2 } hcall
  exact this

/-- C3: for every segment whose distance field is the true provider length
of the segment, every query point b and every fraction a in [0,1], the
provider distance from the query to the point a fraction a along the
segment is at least the per-query lowerBound d(seg.end, b) - seg.distance.
The provider is assumed symmetric and triangle-inequality-compliant, and
the interpolated points of the segment are assumed to lie within the
segment length of its end, which is what being a point of the geodesic
segment means for the abstract provider. -/
theorem c3_lowerBound_sound {α : Type} (d : α → α → ℚ)
    (interp : α → α → ℚ → α) (seg : Segment α) (b : α) (a : ℚ)
    (htri : ∀ p q r, d p r ≤ d p q + d q r)
    (hsym : ∀ p q, d p q = d q p)
    (hlen : seg.distance = d seg.start seg.«end»)
    (hinterp : ∀ t : ℚ, 0 ≤ t → t ≤ 1 →
      d (interp seg.start seg.«end» t) seg.«end» ≤ d seg.start seg.«end»)
    (h0 : 0 ≤ a) (h1 : a ≤ 1) :
    lowerBound d seg b ≤ d b (interp seg.start seg.«end» a) := by
  have htr := htri seg.«end» (interp seg.start seg.«end» a) b
  have hin := hinterp a h0 h1
  have h2 : d seg.«end» (interp seg.start seg.«end» a)
      = d (interp seg.start seg.«end» a) seg.«end» := hsym _ _
  have h3 : d (interp seg.start seg.«end» a) b
      = d b (interp seg.start seg.«end» a) := hsym _ _
  unfold lowerBound
  rw [hlen]
  linarith

/-- C3 witness: the theorem applied to the absolute-difference provider,
the segment from 0 to 2 with stored length 2, the query 5 and the
fraction 1/2. -/
theorem c3_witness :
    ((0 : ℚ) ≤ 1 / 2) ∧ ((1 / 2 : ℚ) ≤ 1) ∧
    lowerBound d1 { start := 0, «end» := 2, distance := 2 } 5
      ≤ d1 5 (interp1 0 2 (1 / 2)) :=
  ⟨by norm_num, by norm_num,
    c3_lowerBound_sound d1 interp1 { start := 0, «end» := 2, distance := 2 }
      5 (1 / 2) d1_tri d1_symm
      (by unfold d1; norm_num [abs_of_nonpos])
      (fun t h0 h1 => interp1_within 0 2 t h0 h1)
      (by norm_num) (by norm_num)⟩

/-- C4: the second-derivative estimator of the minimizer does not use the
fixed finite-difference step for its inner first-derivative estimates; it
passes the evaluation point x instead.  At the start of the iteration the
repository test runs (minimizing (x - 10)^2 from the initial guess 0) the
inner step is therefore 0, the estimate degenerates (0 here under the
rational division convention; 0/0 = NaN in JavaScript), whereas the
specified estimator with inner step h yields the correct value 2; the
embedded minimize consequently returns 0, violating the bound of at least
9.9 the repository test expects of the returned minimizer. -/
theorem c4_secondDerivative_inner_step_bug :
    estimateSecondDerivative (fun x => (x - 10) * (x - 10)) 0 STEP_SIZE = 0 ∧
    specSecondDerivative (fun x => (x - 10) * (x - 10)) 0 STEP_SIZE = 2 ∧
    minimize (fun x => (x - 10) * (x - 10)) 0 = some 0 ∧
    ¬ ((99 / 10 : ℚ) ≤ 0) := by
  refine ⟨?_, ?_, ?_, by norm_num⟩
  · unfold estimateSecondDerivative estimateFirstDerivative STEP_SIZE
    norm_num
  · unfold specSecondDerivative estimateFirstDerivative STEP_SIZE
    norm_num
  · have hnext : newtonNext (fun x => (x - 10) * (x - 10)) STEP_SIZE 0 = 0 := by
      unfold newtonNext estimateSecondDerivative estimateFirstDerivative STEP_SIZE
      norm_num [estimateFirstDerivative]
    rw [show minimize (fun x => (x - 10) * (x - 10)) 0
        = tunableMinimizeGo STEP_SIZE CONVERGENCE_MARGIN
          (fun x => (x - 10) * (x - 10)) (14 + 1) 0 from rfl,
      tunableMinimizeGo_succ, hnext]
    norm_num [CONVERGENCE_MARGIN]

/-- C2 (amended): invoked with an empty segment list, distanceToBorder
fails by throwing a TypeError (the source reads segments[0].start of the
undefined element, modelled as the thrownTypeError error value), not by a
designed value-level EmptyBorder error, and it never returns any result,
degenerate or otherwise. -/
theorem c2_empty_border_throws {α : Type} (d : α → α → ℚ)
    (interp : α → α → ℚ → α) (b : α) :
    distanceToBorder d interp ([] : List (Segment α)) b
      = Except.error CallFailure.thrownTypeError ∧
    ∀ r : NearestResult α,
      distanceToBorder d interp ([] : List (Segment α)) b ≠ Except.ok r := by
  constructor
  · rfl
  · intro r h
    rw [show distanceToBorder d interp ([] : List (Segment α)) b
        = Except.error CallFailure.thrownTypeError from rfl] at h
    exact absurd h (by simp)

/-- C2 counterexample: on the empty border the call does not produce the
EmptyBorder value the claim describes; the failure it produces is the
thrown TypeError. -/
theorem c2_counterexample :
    distanceToBorder d1 interp1 ([] : List (Segment ℚ)) 0
      = Except.error CallFailure.thrownTypeError ∧
    distanceToBorder d1 interp1 ([] : List (Segment ℚ)) 0
      ≠ Except.error CallFailure.emptyBorderError := by
  constructor
  · rfl
  · intro h
    rw [show distanceToBorder d1 interp1 ([] : List (Segment ℚ)) 0
        = Except.error CallFailure.thrownTypeError from rfl] at h
    exact absurd h (by simp)

/-- C7 (amended): a ring with fewer than 2 coordinates contributes no
segments and the build continues silently with the remaining rings; no
validation of any kind is performed. -/
theorem c7_short_ring_silently_skipped (dg : GeoPoint → GeoPoint → ℚ)
    (ring : List (ℚ × ℚ)) (h : ring.length < 2)
    (rest : List (List (ℚ × ℚ))) :
    polygonToPaths dg (ring :: rest) = polygonToPaths dg rest := by
  rcases ring with _ | ⟨c, _ | ⟨c2, cs⟩⟩
  · rfl
  · rfl
  · exfalso
    simp at h
    omega

/-- C7 amended witness: the one-coordinate ring contributes nothing and the
well-formed remainder is still built. -/
theorem c7_short_ring_silently_skipped_witness :
    ([((0 : ℚ), (0 : ℚ))] : List (ℚ × ℚ)).length < 2 ∧
    polygonToPaths d1g [[(0, 0)], [(0, 0), (1, 1)]]
      = polygonToPaths d1g [[(0, 0), (1, 1)]] :=
  ⟨by norm_num,
    c7_short_ring_silently_skipped d1g [(0, 0)] (by norm_num) [[(0, 0), (1, 1)]]⟩

/-- C7 counterexample: on a polygon whose only ring has a single
coordinate, the source builder returns a segment list (the empty one; the
ring is silently dropped) instead of failing, while the builder the
specification describes fails with InvalidGeometry; and an open two-point
ring whose first coordinate differs from its last is likewise processed
without any failure, producing its one segment. -/
theorem c7_counterexample :
    polygonToPaths d1g [[(0, 0)]] = [] ∧
    buildChecked d1g [[(0, 0)]] = Except.error BuildFailure.invalidGeometry ∧
    polygonToPaths d1g [[(0, 0), (1, 1)]]
      = [coordPairToSegment d1g ((0, 0), (1, 1))] := by
  refine ⟨rfl, ?_, rfl⟩
  unfold buildChecked
  rw [if_neg]
  intro h
  simp [List.all] at h

/-- C8: a distanceToBorder call leaves the caller segment list unchanged
(the per-call lowerBound annotations are written onto deep clones gathered
into fresh arrays, so the post-call state of the list is the input
itself), and a second call on that unchanged list with the same query
returns the identical result. -/
theorem c8_no_mutation_idempotent {α : Type} (d : α → α → ℚ)
    (interp : α → α → ℚ → α) (segments : List (Segment α)) (b : α)
    (hne : segments ≠ []) :
    (distanceToBorderCall d interp segments b).2 = segments ∧
    (distanceToBorderCall d interp
        ((distanceToBorderCall d interp segments b).2) b).1
      = (distanceToBorderCall d interp segments b).1 :=
  ⟨rfl, rfl⟩

/-- C8 witness: the theorem applied to the absolute-difference provider
and a one-segment border. -/
theorem c8_witness :
    ([{ start := 0, «end» := 2, distance := 2 }] : List (Segment ℚ)) ≠ [] ∧
    (distanceToBorderCall d1 interp1
        [{ start := 0, «end» := 2, distance := 2 }] 5).2
      = [{ start := 0, «end» := 2, distance := 2 }] ∧
    (distanceToBorderCall d1 interp1
        ((distanceToBorderCall d1 interp1
          [{ start := 0, «end» := 2, distance := 2 }] 5).2) 5).1
      = (distanceToBorderCall d1 interp1
          [{ start := 0, «end» := 2, distance := 2 }] 5).1 :=
  ⟨by simp,
    c8_no_mutation_idempotent d1 interp1
      [{ start := 0, «end» := 2, distance := 2 }] 5 (by simp)⟩

/-- Comparing against an out-of-range read is always false, as any
JavaScript comparison with undefined is. -/
theorem jsLtOpt_none_left (x : Option ℚ) : jsLtOpt none x = false := by
  cases x <;> rfl

/-- The index selected by the legacy minimum-selection loop stays within
the bounds of any nonempty distances list: the loop starts at 0 and only
moves to an index whose read succeeded. -/
theorem legacyMini_lt_length (l : List ℚ) (hl : 0 < l.length) :
    legacyMini l < l.length := by
  unfold legacyMini
  have hstep : ∀ (idxs : List ℕ) (mini : ℕ), mini < l.length →
      idxs.foldl (fun mini i =>
        if jsLtOpt (l.get? i) (l.get? mini) then i else mini) mini < l.length := by
    intro idxs
    induction idxs with
    | nil => intro mini h; exact h
    | cons i idxs ih =>
      intro mini h
      rw [List.foldl_cons]
      apply ih
      by_cases hc : jsLtOpt (l.get? i) (l.get? mini) = true
      · rw [if_pos hc]
        by_cases hi : i < l.length
        · exact hi
        · exfalso
          rw [List.get?_eq_none.mpr (le_of_not_lt hi), jsLtOpt_none_left] at hc
          exact Bool.false_ne_true hc
      · rw [if_neg hc]
        exact h
  exact hstep (List.range 3) 0 hl

/-- C10 (amended): the selection loop of the legacy
getClosestPointAndDistanceOnSegment iterates the fixed indices 0, 1, 2
even when the distances list has only 2 entries, so the loop does read
past the end; but because a comparison against such a read is false, the
selected index always stays within bounds and the function always returns
a result. -/
theorem c10_selection_index_in_bounds {α : Type} (dS dArc : α → α → ℚ)
    (interp : α → α → ℚ → α) (a1 a2 b : α) :
    legacyMini (legacyDistances dS dArc interp a1 a2 b)
      < (legacyDistances dS dArc interp a1 a2 b).length ∧
    ∃ r : NearestResult α,
      getClosestPointAndDistanceOnSegment dS dArc interp a1 a2 b = some r := by
  have hlen : 0 < (legacyDistances dS dArc interp a1 a2 b).length := by
    unfold legacyDistances legacyCandidates
    simp
  have hm := legacyMini_lt_length _ hlen
  have hceq : (legacyCandidates dArc interp a1 a2 b).length
      = (legacyDistances dS dArc interp a1 a2 b).length := by
    unfold legacyDistances
    rw [List.length_map]
  refine ⟨hm, ?_⟩
  obtain ⟨dd, hdd⟩ : ∃ v, (legacyDistances dS dArc interp a1 a2 b).get?
      (legacyMini (legacyDistances dS dArc interp a1 a2 b)) = some v :=
    ⟨_, List.get?_eq_get hm⟩
  obtain ⟨cc, hcc⟩ : ∃ v, (legacyCandidates dArc interp a1 a2 b).get?
      (legacyMini (legacyDistances dS dArc interp a1 a2 b)) = some v :=
    ⟨_, List.get?_eq_get (hceq ▸ hm)⟩
  refine ⟨{ distance := dd, point := cc }, ?_⟩
  show (match (legacyDistances dS dArc interp a1 a2 b).get?
          (legacyMini (legacyDistances dS dArc interp a1 a2 b)),
        (legacyCandidates dArc interp a1 a2 b).get?
          (legacyMini (legacyDistances dS dArc interp a1 a2 b)) with
    | some dist, some c => some ({ distance := dist, point := c } : NearestResult α)
    | _, _ => (none : Option (NearestResult α)))
    = some { distance := dd, point := cc }
  rw [hdd, hcc]

/-- C10 counterexample: with a provider along which the minimizer sees the
function -(alpha * alpha) and converges to alpha = 0, the candidate list
has only the two endpoints, the distances list has length 2, and the read
the selection loop performs at index 2 yields none: not every read in the
loop is within bounds. -/
theorem c10_counterexample :
    Option.none ∈ legacyLoopReads (legacyDistances d1 cArc cInterp 0 1 5) := by
  have h1 : legacyNewtonNext (fun alpha => cArc (cInterp 0 1 alpha) 5)
      (1 / 100) (1 / 2) = 0 := by
    norm_num [legacyNewtonNext, legacyEstimateFirstDerivative,
      legacyEstimateSecondDerivative, cArc, cInterp]
  have h2 : legacyNewtonNext (fun alpha => cArc (cInterp 0 1 alpha) 5)
      (1 / 100) 0 = 0 := by
    norm_num [legacyNewtonNext, legacyEstimateFirstDerivative,
      legacyEstimateSecondDerivative, cArc, cInterp]
  have halpha : newtonMinimization (fun alpha => cArc (cInterp 0 1 alpha) 5)
      (1 / 2) 15 (1 / 100) (1 / 1000) = some 0 := by
    rw [show newtonMinimization (fun alpha => cArc (cInterp 0 1 alpha) 5)
        (1 / 2) 15 (1 / 100) (1 / 1000)
        = newtonMinimizationGo (fun alpha => cArc (cInterp 0 1 alpha) 5)
          (1 / 100) (1 / 1000) (14 + 1) (1 / 2) from rfl,
      newtonMinimizationGo_succ, h1]
    rw [if_neg (by norm_num [abs_of_nonneg])]
    rw [show (14 : ℕ) = 13 + 1 from rfl, newtonMinimizationGo_succ, h2]
    norm_num
  have hcand : legacyCandidates cArc cInterp 0 1 5 = [0, 1] := by
    show [0, 1] ++ (match newtonMinimization
        (fun alpha => cArc (cInterp 0 1 alpha) 5) (1 / 2) 15 (1 / 100) (1 / 1000) with
      | some a => if 0 < a ∧ a < 1 then [cInterp 0 1 a] else []
      | none => []) = [0, 1]
    rw [halpha]
    norm_num
  have hdist : legacyDistances d1 cArc cInterp 0 1 5 = [d1 5 0, d1 5 1] := by
    unfold legacyDistances
    rw [hcand]
    rfl
  unfold legacyLoopReads
  rw [hdist]
  show Option.none ∈ List.map (List.get? [d1 5 0, d1 5 1]) [0, 1, 2]
  simp

/-- Full characterization of the tunableMinimize loop against the Newton
iterate sequence: starting from the k-th iterate with the given fuel, the
loop either returns the iterate after the first convergent step inside the
fuel window, or runs out of fuel with no convergent step in the window and
returns the sentinel. -/
theorem tunableMinimizeGo_characterization (s m : ℚ) (f : ℚ → ℚ) (g : ℚ) :
    ∀ (fuel k : ℕ),
      (∃ n : ℕ, n < fuel ∧
        tunableMinimizeGo s m f fuel ((newtonNext f s)^[k] g)
          = some ((newtonNext f s)^[k + n + 1] g) ∧
        |(newtonNext f s)^[k + n] g - (newtonNext f s)^[k + n + 1] g| < m ∧
        ∀ j < n,
          ¬ |(newtonNext f s)^[k + j] g - (newtonNext f s)^[k + j + 1] g| < m) ∨
      ((∀ n < fuel,
          ¬ |(newtonNext f s)^[k + n] g - (newtonNext f s)^[k + n + 1] g| < m) ∧
        tunableMinimizeGo s m f fuel ((newtonNext f s)^[k] g) = none) := by
  intro fuel
  induction fuel with
  | zero =>
    intro k
    exact Or.inr ⟨fun n hn => absurd hn (Nat.not_lt_zero n), rfl⟩
  | succ fuel ih =>
    intro k
    have hnext : newtonNext f s ((newtonNext f s)^[k] g)
        = (newtonNext f s)^[k + 1] g :=
      (Function.iterate_succ_apply' (newtonNext f s) k g).symm
    by_cases hc : |(newtonNext f s)^[k] g - (newtonNext f s)^[k + 1] g| < m
    · left
      refine ⟨0, Nat.succ_pos fuel, ?_, ?_, ?_⟩
      · rw [tunableMinimizeGo_succ, hnext, if_pos hc]
      · simpa using hc
      · intro j hj
        exact absurd hj (Nat.not_lt_zero j)
    · have hstep : tunableMinimizeGo s m f (fuel + 1) ((newtonNext f s)^[k] g)
          = tunableMinimizeGo s m f fuel ((newtonNext f s)^[k + 1] g) := by
        rw [tunableMinimizeGo_succ, hnext, if_neg hc]
      rcases ih (k + 1) with ⟨n, hn, hgo, hconv, hfirst⟩ | ⟨hnone, hgo⟩
      · left
        refine ⟨n + 1, Nat.succ_lt_succ hn, ?_, ?_, ?_⟩
        · rw [hstep, show k + (n + 1) + 1 = k + 1 + n + 1 from by omega]
          exact hgo
        · simp only [show k + (n + 1) = k + 1 + n from by omega,
            show k + (n + 1) + 1 = k + 1 + n + 1 from by omega]
          exact hconv
        · intro j hj
          cases j with
          | zero => simpa using hc
          | succ j' =>
            have hthis := hfirst j' (Nat.lt_of_succ_lt_succ hj)
            simp only [show k + 1 + j' = k + (j' + 1) from by omega,
              show k + 1 + j' + 1 = k + (j' + 1) + 1 from by omega] at hthis
            exact hthis
      · right
        refine ⟨?_, by rw [hstep]; exact hgo⟩
        intro n hn
        cases n with
        | zero => simpa using hc
        | succ n' =>
          have hthis := hnone n' (Nat.lt_of_succ_lt_succ hn)
          simp only [show k + 1 + n' = k + (n' + 1) from by omega,
            show k + 1 + n' + 1 = k + (n' + 1) + 1 from by omega] at hthis
          exact hthis

/-- C5: for every total scalar function and every initial guess, minimize
either returns the Newton iterate produced by the first step whose
absolute difference from its predecessor is below CONVERGENCE_MARGIN
within NUM_ITERS = 15 iterations, or returns the sentinel none (the
NotConverged false of the source); being a total function of its inputs
it never throws.  The update newtonNext is the exact source update, using
the source second-derivative estimator; rational division by an exactly
zero estimate follows the Lean 0 convention where JavaScript would produce
an infinite iterate and continue. -/
theorem c5_minimize_first_convergent_or_sentinel (f : ℚ → ℚ) (g : ℚ) :
    (∃ n : ℕ, n < NUM_ITERS ∧
      minimize f g = some ((newtonNext f STEP_SIZE)^[n + 1] g) ∧
      |(newtonNext f STEP_SIZE)^[n] g - (newtonNext f STEP_SIZE)^[n + 1] g|
        < CONVERGENCE_MARGIN ∧
      ∀ j < n,
        ¬ |(newtonNext f STEP_SIZE)^[j] g - (newtonNext f STEP_SIZE)^[j + 1] g|
          < CONVERGENCE_MARGIN) ∨
    ((∀ n < NUM_ITERS,
        ¬ |(newtonNext f STEP_SIZE)^[n] g - (newtonNext f STEP_SIZE)^[n + 1] g|
          < CONVERGENCE_MARGIN) ∧
      minimize f g = none) := by
  have h := tunableMinimizeGo_characterization STEP_SIZE CONVERGENCE_MARGIN f g
    NUM_ITERS 0
  have hmin : minimize f g = tunableMinimizeGo STEP_SIZE CONVERGENCE_MARGIN f
      NUM_ITERS ((newtonNext f STEP_SIZE)^[0] g) := rfl
  rw [← hmin] at h
  simpa using h

/-- C5 witness: the characterization applied to the concrete quadratic of
the repository test and the initial guess 0. -/
theorem c5_witness :
    (∃ n : ℕ, n < NUM_ITERS ∧
      minimize (fun x => (x - 10) * (x - 10)) 0
        = some ((newtonNext (fun x => (x - 10) * (x - 10)) STEP_SIZE)^[n + 1] 0) ∧
      |(newtonNext (fun x => (x - 10) * (x - 10)) STEP_SIZE)^[n] 0
          - (newtonNext (fun x => (x - 10) * (x - 10)) STEP_SIZE)^[n + 1] 0|
        < CONVERGENCE_MARGIN ∧
      ∀ j < n,
        ¬ |(newtonNext (fun x => (x - 10) * (x - 10)) STEP_SIZE)^[j] 0
            - (newtonNext (fun x => (x - 10) * (x - 10)) STEP_SIZE)^[j + 1] 0|
          < CONVERGENCE_MARGIN) ∨
    ((∀ n < NUM_ITERS,
        ¬ |(newtonNext (fun x => (x - 10) * (x - 10)) STEP_SIZE)^[n] 0
            - (newtonNext (fun x => (x - 10) * (x - 10)) STEP_SIZE)^[n + 1] 0|
          < CONVERGENCE_MARGIN) ∧
      minimize (fun x => (x - 10) * (x - 10)) 0 = none) :=
  c5_minimize_first_convergent_or_sentinel (fun x => (x - 10) * (x - 10)) 0

/-- C2 witness: the amended behaviour at the concrete empty border. -/
theorem c2_witness :
    distanceToBorder d1 interp1 ([] : List (Segment ℚ)) 0
      = Except.error CallFailure.thrownTypeError ∧
    ∀ r : NearestResult ℚ,
      distanceToBorder d1 interp1 ([] : List (Segment ℚ)) 0 ≠ Except.ok r :=
  c2_empty_border_throws d1 interp1 0

/-- Pruning soundness at the level of one segment: under the metric
hypotheses on the provider, the distance of the closestToGeodesic result
for a segment with a truthful distance field is at least the per-query
lower bound of that segment, whichever candidate won the minimum. -/
theorem lowerBound_le_closest {α : Type} (d : α → α → ℚ)
    (interp : α → α → ℚ → α) (b : α) (seg : Segment α)
    (htri : ∀ p q r, d p r ≤ d p q + d q r)
    (hsym : ∀ p q, d p q = d q p)
    (hnn : ∀ p q, 0 ≤ d p q)
    (hinterp : ∀ (s e : α) (t : ℚ), 0 < t → t < 1 → d (interp s e t) e ≤ d s e)
    (hlen : seg.distance = d seg.start seg.«end») :
    lowerBound d seg b
      ≤ (closestToGeodesic d interp b seg.start seg.«end»).distance := by
  rw [closestToGeodesic_distance_eq_point]
  rcases closestToGeodesic_point_cases d interp b seg.start seg.«end» with
    h | h | ⟨a, ha0, ha1, h⟩
  · rw [h]
    have htr := htri seg.«end» seg.start b
    have hs : d seg.«end» seg.start = d seg.start seg.«end» := hsym _ _
    unfold lowerBound
    rw [hlen]
    linarith
  · rw [h]
    have := hnn seg.start seg.«end»
    unfold lowerBound
    rw [hlen]
    linarith
  · rw [h]
    have htr := htri seg.«end» (interp seg.start seg.«end» a) b
    have hi := hinterp seg.start seg.«end» a ha0 ha1
    have hs : d seg.«end» (interp seg.start seg.«end» a)
        = d (interp seg.start seg.«end» a) seg.«end» := hsym _ _
    unfold lowerBound
    rw [hlen]
    linarith

/-- Correctness of the scan loop: on a tail sorted ascending by truthful
lower bounds of segments with truthful distance fields, the loop result is
no worse than the seeded best, no worse than the closest result of any
listed segment (so the break never loses a better segment), and is either
the seeded best or the closest result of one of the listed segments. -/
theorem scanLoop_min_spec {α : Type} (d : α → α → ℚ)
    (interp : α → α → ℚ → α) (b : α)
    (htri : ∀ p q r, d p r ≤ d p q + d q r)
    (hsym : ∀ p q, d p q = d q p)
    (hnn : ∀ p q, 0 ≤ d p q)
    (hinterp : ∀ (s e : α) (t : ℚ), 0 < t → t < 1 → d (interp s e t) e ≤ d s e) :
    ∀ (l : List (Segment α × ℚ)) (best : NearestResult α),
      List.Sorted (fun x y : Segment α × ℚ => x.2 ≤ y.2) l →
      (∀ p ∈ l, p.2 = lowerBound d p.1 b) →
      (∀ p ∈ l, p.1.distance = d p.1.start p.1.«end») →
      (scanLoop d interp b l best).distance ≤ best.distance ∧
      (∀ p ∈ l, (scanLoop d interp b l best).distance
        ≤ (closestToGeodesic d interp b p.1.start p.1.«end»).distance) ∧
      (scanLoop d interp b l best = best ∨
       ∃ p ∈ l, scanLoop d interp b l best
         = closestToGeodesic d interp b p.1.start p.1.«end») := by
  intro l
  induction l with
  | nil =>
    intro best _ _ _
    exact ⟨le_refl _, by simp, Or.inl rfl⟩
  | cons p rest ih =>
    intro best hsorted hlb hlen2
    obtain ⟨seg, lb⟩ := p
    rw [List.sorted_cons] at hsorted
    obtain ⟨hhead, hrest⟩ := hsorted
    have hlb_head : lb = lowerBound d seg b :=
      hlb (seg, lb) (List.mem_cons_self _ _)
    have hlen_head : seg.distance = d seg.start seg.«end» :=
      hlen2 (seg, lb) (List.mem_cons_self _ _)
    have hclose : lowerBound d seg b
        ≤ (closestToGeodesic d interp b seg.start seg.«end»).distance :=
      lowerBound_le_closest d interp b seg htri hsym hnn hinterp hlen_head
    rw [scanLoop_cons]
    by_cases hb : best.distance < lb
    · rw [if_pos hb]
      refine ⟨le_refl _, ?_, Or.inl rfl⟩
      intro q hq
      rcases List.mem_cons.mp hq with h1 | h1
      · subst h1
        calc best.distance ≤ lb := le_of_lt hb
          _ = lowerBound d seg b := hlb_head
          _ ≤ _ := hclose
      · have hq2 : lb ≤ q.2 := hhead q h1
        have hq3 : q.2 = lowerBound d q.1 b := hlb q (List.mem_cons_of_mem _ h1)
        have hql : q.1.distance = d q.1.start q.1.«end» :=
          hlen2 q (List.mem_cons_of_mem _ h1)
        have hqc := lowerBound_le_closest d interp b q.1 htri hsym hnn hinterp hql
        calc best.distance ≤ lb := le_of_lt hb
          _ ≤ q.2 := hq2
          _ = lowerBound d q.1 b := hq3
          _ ≤ _ := hqc
    · rw [if_neg hb]
      have hb2a : (if (closestToGeodesic d interp b seg.start seg.«end»).distance
            < best.distance
          then closestToGeodesic d interp b seg.start seg.«end» else best).distance
          ≤ best.distance := by
        split
        · exact le_of_lt (by assumption)
        · exact le_refl _
      have hb2b : (if (closestToGeodesic d interp b seg.start seg.«end»).distance
            < best.distance
          then closestToGeodesic d interp b seg.start seg.«end» else best).distance
          ≤ (closestToGeodesic d interp b seg.start seg.«end»).distance := by
        split
        · exact le_refl _
        · exact not_lt.mp (by assumption)
      obtain ⟨iha, ihb, ihc⟩ := ih
        (if (closestToGeodesic d interp b seg.start seg.«end»).distance
            < best.distance
         then closestToGeodesic d interp b seg.start seg.«end» else best)
        hrest
        (fun q hq => hlb q (List.mem_cons_of_mem _ hq))
        (fun q hq => hlen2 q (List.mem_cons_of_mem _ hq))
      refine ⟨le_trans iha hb2a, ?_, ?_⟩
      · intro q hq
        rcases List.mem_cons.mp hq with h1 | h1
        · subst h1
          exact le_trans iha hb2b
        · exact ihb q h1
      · rcases ihc with h2 | ⟨q, hq, h2⟩
        · by_cases hrb : (closestToGeodesic d interp b seg.start seg.«end»).distance
              < best.distance
          · right
            refine ⟨(seg, lb), List.mem_cons_self _ _, ?_⟩
            rw [h2, if_pos hrb]
          · left
            rw [h2, if_neg hrb]
        · right
          exact ⟨q, List.mem_cons_of_mem _ hq, h2⟩

/-- Correctness of the exhaustive reference fold: its result is no worse
than the seeded best, no worse than the closest result of any listed
segment, and is either the seeded best or one of the closest results. -/
theorem exhaustiveFold_spec {α : Type} (d : α → α → ℚ)
    (interp : α → α → ℚ → α) (b : α) :
    ∀ (l : List (Segment α)) (best : NearestResult α),
      (l.foldl (exhaustiveStep d interp b) best).distance ≤ best.distance ∧
      (∀ seg ∈ l, (l.foldl (exhaustiveStep d interp b) best).distance
        ≤ (closestToGeodesic d interp b seg.start seg.«end»).distance) ∧
      (l.foldl (exhaustiveStep d interp b) best = best ∨
       ∃ seg ∈ l, l.foldl (exhaustiveStep d interp b) best
         = closestToGeodesic d interp b seg.start seg.«end») := by
  intro l
  induction l with
  | nil => intro best; exact ⟨le_refl _, by simp, Or.inl rfl⟩
  | cons seg rest ih =>
    intro best
    rw [List.foldl_cons]
    have hstep : exhaustiveStep d interp b best seg
        = if (closestToGeodesic d interp b seg.start seg.«end»).distance
            < best.distance
          then closestToGeodesic d interp b seg.start seg.«end» else best := rfl
    rw [hstep]
    have hb2a : (if (closestToGeodesic d interp b seg.start seg.«end»).distance
          < best.distance
        then closestToGeodesic d interp b seg.start seg.«end» else best).distance
        ≤ best.distance := by
      split
      · exact le_of_lt (by assumption)
      · exact le_refl _
    have hb2b : (if (closestToGeodesic d interp b seg.start seg.«end»).distance
          < best.distance
        then closestToGeodesic d interp b seg.start seg.«end» else best).distance
        ≤ (closestToGeodesic d interp b seg.start seg.«end»).distance := by
      split
      · exact le_refl _
      · exact not_lt.mp (by assumption)
    obtain ⟨iha, ihb, ihc⟩ := ih
      (if (closestToGeodesic d interp b seg.start seg.«end»).distance
          < best.distance
       then closestToGeodesic d interp b seg.start seg.«end» else best)
    refine ⟨le_trans iha hb2a, ?_, ?_⟩
    · intro q hq
      rcases List.mem_cons.mp hq with h1 | h1
      · subst h1
        exact le_trans iha hb2b
      · exact ihb q h1
    · rcases ihc with h2 | ⟨q, hq, h2⟩
      · by_cases hrb : (closestToGeodesic d interp b seg.start seg.«end»).distance
            < best.distance
        · right
          refine ⟨seg, List.mem_cons_self _ _, ?_⟩
          rw [h2, if_pos hrb]
        · left
          rw [h2, if_neg hrb]
      · right
        exact ⟨q, List.mem_cons_of_mem _ hq, h2⟩

/-- The annotated list distanceToBorder sorts is sorted ascending by the
attached lower bounds. -/
theorem annotateAndSort_sorted {α : Type} (d : α → α → ℚ)
    (segments : List (Segment α)) (b : α) :
    List.Sorted (fun x y : Segment α × ℚ => x.2 ≤ y.2)
      (annotateAndSort d segments b) := by
  unfold annotateAndSort
  haveI h1 : IsTotal (Segment α × ℚ) (fun x y => x.2 ≤ y.2) :=
    ⟨fun a c => le_total a.2 c.2⟩
  haveI h2 : IsTrans (Segment α × ℚ) (fun x y => x.2 ≤ y.2) :=
    ⟨fun a c e hac hce => le_trans hac hce⟩
  exact List.sorted_insertionSort _ _

/-- The annotated list is a permutation of the input segments paired with
their lower bounds. -/
theorem annotateAndSort_perm {α : Type} (d : α → α → ℚ)
    (segments : List (Segment α)) (b : α) :
    (annotateAndSort d segments b).Perm
      (segments.map (fun seg => (seg, lowerBound d seg b))) :=
  List.perm_insertionSort _ _

/-- Each annotated entry is an input segment together with exactly its
lower bound. -/
theorem annotateAndSort_mem {α : Type} (d : α → α → ℚ)
    (segments : List (Segment α)) (b : α) :
    ∀ p ∈ annotateAndSort d segments b,
      p.1 ∈ segments ∧ p.2 = lowerBound d p.1 b := by
  intro p hp
  have hmap := (annotateAndSort_perm d segments b).mem_iff.mp hp
  obtain ⟨seg, hseg, rfl⟩ := List.mem_map.mp hmap
  exact ⟨hseg, rfl⟩

/-- Every input segment occurs, with its lower bound, in the annotated
list. -/
theorem annotateAndSort_mem_of {α : Type} (d : α → α → ℚ)
    (segments : List (Segment α)) (b : α) :
    ∀ seg ∈ segments,
      (seg, lowerBound d seg b) ∈ annotateAndSort d segments b := by
  intro seg hseg
  exact (annotateAndSort_perm d segments b).mem_iff.mpr
    (List.mem_map_of_mem _ hseg)

/-- C1: for every non-empty segment list with truthful distance fields and
every query point, the pruned distanceToBorder succeeds and its result
distance equals the distance of the exhaustive, unpruned evaluation of
every segment, both being the minimum over all segments of the
closestToGeodesic distance; the lower-bound sort and the early-termination
scan never change the returned distance.  The geodesic provider is assumed
symmetric, nonnegative and triangle-inequality-compliant, with interior
interpolated points lying within the segment length of the segment end. -/
theorem c1_distanceToBorder_pruning_exact {α : Type} (d : α → α → ℚ)
    (interp : α → α → ℚ → α)
    (htri : ∀ p q r, d p r ≤ d p q + d q r)
    (hsym : ∀ p q, d p q = d q p)
    (hnn : ∀ p q, 0 ≤ d p q)
    (hinterp : ∀ (s e : α) (t : ℚ), 0 < t → t < 1 → d (interp s e t) e ≤ d s e)
    (segments : List (Segment α)) (b : α)
    (hne : segments ≠ [])
    (hlen : ∀ seg ∈ segments, seg.distance = d seg.start seg.«end») :
    ∃ r r' : NearestResult α,
      distanceToBorder d interp segments b = Except.ok r ∧
      exhaustiveDistanceToBorder d interp segments b = Except.ok r' ∧
      r.distance = r'.distance ∧
      (∀ seg ∈ segments, r.distance
        ≤ (closestToGeodesic d interp b seg.start seg.«end»).distance) ∧
      (∃ seg ∈ segments, r.distance
        = (closestToGeodesic d interp b seg.start seg.«end»).distance) := by
  obtain ⟨t0, trest, hE⟩ : ∃ t0 trest, segments = t0 :: trest := by
    cases segments with
    | nil => exact absurd rfl hne
    | cons a l => exact ⟨a, l, rfl⟩
  rcases hA : annotateAndSort d segments b with _ | ⟨s0, rest⟩
  · exfalso
    have hperm := annotateAndSort_perm d segments b
    rw [hA] at hperm
    have h0 : segments.length = 0 := by
      have hl := hperm.length_eq
      simpa using hl.symm
    exact hne (List.eq_nil_of_length_eq_zero h0)
  · have hsorted := annotateAndSort_sorted d segments b
    rw [hA, List.sorted_cons] at hsorted
    obtain ⟨hhead, hrest_sorted⟩ := hsorted
    have hmem : ∀ p ∈ (s0 :: rest), p.1 ∈ segments ∧ p.2 = lowerBound d p.1 b := by
      intro p hp
      apply annotateAndSort_mem d segments b
      rw [hA]
      exact hp
    have hdtb : distanceToBorder d interp segments b
        = Except.ok (scanLoop d interp b rest
          (closestToGeodesic d interp b s0.1.start s0.1.«end»)) := by
      unfold distanceToBorder
      rw [hA]
    obtain ⟨hsa, hsb, hsc⟩ := scanLoop_min_spec d interp b htri hsym hnn hinterp
      rest (closestToGeodesic d interp b s0.1.start s0.1.«end») hrest_sorted
      (fun q hq => (hmem q (List.mem_cons_of_mem _ hq)).2)
      (fun q hq => hlen q.1 (hmem q (List.mem_cons_of_mem _ hq)).1)
    have hEok : exhaustiveDistanceToBorder d interp segments b
        = Except.ok (trest.foldl (exhaustiveStep d interp b)
          (closestToGeodesic d interp b t0.start t0.«end»)) := by
      rw [hE]
      rfl
    obtain ⟨hea, heb, hec⟩ := exhaustiveFold_spec d interp b trest
      (closestToGeodesic d interp b t0.start t0.«end»)
    -- the pruned result is below every segment closest distance
    have hallr : ∀ seg ∈ segments,
        (scanLoop d interp b rest
          (closestToGeodesic d interp b s0.1.start s0.1.«end»)).distance
        ≤ (closestToGeodesic d interp b seg.start seg.«end»).distance := by
      intro seg hseg
      have hin : (seg, lowerBound d seg b) ∈ s0 :: rest := by
        rw [← hA]
        exact annotateAndSort_mem_of d segments b seg hseg
      rcases List.mem_cons.mp hin with h1 | h1
      · have hseq : s0.1 = seg := by rw [← h1]
        rw [← hseq]
        exact hsa
      · exact hsb (seg, lowerBound d seg b) h1
    -- the pruned result attains some segment closest distance
    have hattr : ∃ seg ∈ segments,
        (scanLoop d interp b rest
          (closestToGeodesic d interp b s0.1.start s0.1.«end»)).distance
        = (closestToGeodesic d interp b seg.start seg.«end»).distance := by
      rcases hsc with h2 | ⟨q, hq, h2⟩
      · exact ⟨s0.1, (hmem s0 (List.mem_cons_self _ _)).1, by rw [h2]⟩
      · exact ⟨q.1, (hmem q (List.mem_cons_of_mem _ hq)).1, by rw [h2]⟩
    -- the exhaustive result is below every segment closest distance
    have hallr' : ∀ seg ∈ segments,
        (trest.foldl (exhaustiveStep d interp b)
          (closestToGeodesic d interp b t0.start t0.«end»)).distance
        ≤ (closestToGeodesic d interp b seg.start seg.«end»).distance := by
      intro seg hseg
      rw [hE] at hseg
      rcases List.mem_cons.mp hseg with h1 | h1
      · subst h1
        exact hea
      · exact heb seg h1
    -- the exhaustive result attains some segment closest distance
    have hattr' : ∃ seg ∈ segments,
        (trest.foldl (exhaustiveStep d interp b)
          (closestToGeodesic d interp b t0.start t0.«end»)).distance
        = (closestToGeodesic d interp b seg.start seg.«end»).distance := by
      rcases hec with h2 | ⟨q, hq, h2⟩
      · exact ⟨t0, by rw [hE]; exact List.mem_cons_self _ _, by rw [h2]⟩
      · exact ⟨q, by rw [hE]; exact List.mem_cons_of_mem _ hq, by rw [h2]⟩
    refine ⟨_, _, hdtb, hEok, ?_, hallr, hattr⟩
    obtain ⟨sege, hsege, heq⟩ := hattr
    obtain ⟨sege', hsege', heq'⟩ := hattr'
    apply le_antisymm
    · rw [heq']
      exact hallr sege' hsege'
    · rw [heq]
      exact hallr' sege hsege

/-- C1 witness: the theorem applied to the absolute-difference provider
and a concrete two-segment border queried from 5. -/
theorem c1_witness :
    ([{ start := 0, «end» := 2, distance := 2 },
      { start := 2, «end» := 6, distance := 4 }] : List (Segment ℚ)) ≠ [] ∧
    (∀ seg ∈ ([{ start := 0, «end» := 2, distance := 2 },
        { start := 2, «end» := 6, distance := 4 }] : List (Segment ℚ)),
      seg.distance = d1 seg.start seg.«end») ∧
    ∃ r r' : NearestResult ℚ,
      distanceToBorder d1 interp1
        [{ start := 0, «end» := 2, distance := 2 },
         { start := 2, «end» := 6, distance := 4 }] 5 = Except.ok r ∧
      exhaustiveDistanceToBorder d1 interp1
        [{ start := 0, «end» := 2, distance := 2 },
         { start := 2, «end» := 6, distance := 4 }] 5 = Except.ok r' ∧
      r.distance = r'.distance ∧
      (∀ seg ∈ ([{ start := 0, «end» := 2, distance := 2 },
          { start := 2, «end» := 6, distance := 4 }] : List (Segment ℚ)),
        r.distance ≤ (closestToGeodesic d1 interp1 5 seg.start seg.«end»).distance) ∧
      (∃ seg ∈ ([{ start := 0, «end» := 2, distance := 2 },
          { start := 2, «end» := 6, distance := 4 }] : List (Segment ℚ)),
        r.distance = (closestToGeodesic d1 interp1 5 seg.start seg.«end»).distance) := by
  have hlen : ∀ seg ∈ ([{ start := 0, «end» := 2, distance := 2 },
      { start := 2, «end» := 6, distance := 4 }] : List (Segment ℚ)),
      seg.distance = d1 seg.start seg.«end» := by
    intro seg hseg
    rcases List.mem_cons.mp hseg with h | h
    · subst h
      show (2 : ℚ) = |(0 : ℚ) - 2|
      rw [show (0 : ℚ) - 2 = -2 by norm_num, abs_neg]
      norm_num
    · rcases List.mem_cons.mp h with h2 | h2
      · subst h2
        show (4 : ℚ) = |(2 : ℚ) - 6|
        rw [show (2 : ℚ) - 6 = -4 by norm_num, abs_neg]
        norm_num
      · simp at h2
  refine ⟨by simp, hlen, ?_⟩
  exact c1_distanceToBorder_pruning_exact d1 interp1 d1_tri d1_symm d1_nonneg
    (fun s e t h0 h1 => interp1_within s e t (le_of_lt h0) (le_of_lt h1))
    _ 5 (by simp) hlen
